import Mathlib

/-
Verification of pykickstart's multipath command (pykickstart/commands/multipath.py)
and kickstart file sections (pykickstart/sections.py).

The Python source is shallowly embedded: classes holding mutable state become
structures, and each method becomes a function from the old state (plus the
method's arguments) to the new state, together with the returned or raised value.
Python strings are Lean `String`s, and the Python string primitives the source
uses (str.split, str.strip, str.join) are implemented below on `String.data`.
-/

set_option maxHeartbeats 1000000

/-! ## Python string primitives used by the source -/

/-- Python `str.split(sep)` for a one-character separator: splits at every
occurrence of `c`, keeping empty segments, so the result is never empty
(`"".split('/') == ['']` in Python). -/
def splitOnChar (c : Char) : List Char → List (List Char)
  | [] => [[]]
  | ch :: rest =>
    match splitOnChar c rest with
    | [] => [[]]
    | g :: gs => if ch = c then [] :: g :: gs else (ch :: g) :: gs

theorem splitOnChar_ne_nil (c : Char) (l : List Char) : splitOnChar c l ≠ [] := by
  induction l with
  | nil => simp [splitOnChar]
  | cons ch rest ih =>
    cases h : splitOnChar c rest with
    | nil => exact absurd h ih
    | cons g gs =>
      simp only [splitOnChar, h]
      split <;> simp

theorem splitOnChar_not_mem (c : Char) (l : List Char) :
    ∀ seg ∈ splitOnChar c l, c ∉ seg := by
  induction l with
  | nil =>
    intro seg h
    have : seg = [] := by simpa [splitOnChar] using h
    simp [this]
  | cons ch rest ih =>
    intro seg hseg
    cases h : splitOnChar c rest with
    | nil => exact absurd h (splitOnChar_ne_nil c rest)
    | cons g gs =>
      simp only [splitOnChar, h] at hseg
      by_cases hc : ch = c
      · rw [if_pos hc] at hseg
        rcases List.mem_cons.mp hseg with h1 | h1
        · subst h1; simp
        · exact ih seg (h ▸ h1)
      · rw [if_neg hc] at hseg
        rcases List.mem_cons.mp hseg with h1 | h1
        · subst h1
          intro hmem
          rcases List.mem_cons.mp hmem with h2 | h2
          · exact hc h2.symm
          · exact ih g (h ▸ List.mem_cons_self g gs) h2
        · exact ih seg (h ▸ List.mem_cons_of_mem g h1)

theorem splitOnChar_of_not_mem {c : Char} {l : List Char} (h : c ∉ l) :
    splitOnChar c l = [l] := by
  induction l with
  | nil => rfl
  | cons ch rest ih =>
    have hch : ch ≠ c := fun hc => h (hc ▸ List.mem_cons_self ch rest)
    have hrest : c ∉ rest := fun hc => h (List.mem_cons_of_mem ch hc)
    simp only [splitOnChar, ih hrest]
    simp [fun hc => hch hc]

theorem getLastD_mem {α : Type} (l : List α) (d : α) (h : l ≠ []) :
    l.getLastD d ∈ l := by
  rw [List.getLastD_eq_getLast?, List.getLast?_eq_getLast l h, Option.getD_some]
  exact List.getLast_mem h

/-- The last path component: `s.split('/')[-1]` in the source
(`dd.mpdev = dd.name.split('/')[-1]`, multipath.py:86). -/
def lastSeg (s : String) : String :=
  String.mk ((splitOnChar '/' s.data).getLastD [])

theorem lastSeg_no_slash (s : String) : '/' ∉ (lastSeg s).data := by
  have hne := splitOnChar_ne_nil '/' s.data
  have hmem := getLastD_mem (splitOnChar '/' s.data) [] hne
  exact splitOnChar_not_mem '/' s.data _ hmem

theorem lastSeg_of_no_slash {s : String} (h : '/' ∉ s.data) : lastSeg s = s := by
  unfold lastSeg
  rw [splitOnChar_of_not_mem h]
  rfl

theorem lastSeg_idem (s : String) : lastSeg (lastSeg s) = lastSeg s :=
  lastSeg_of_no_slash (lastSeg_no_slash s)

/-- The characters Python `str.strip()` removes: ASCII whitespace. -/
def pyIsSpace (c : Char) : Bool :=
  c = ' ' || c = '\t' || c = '\n' || c = '\r' || c = '\x0b' || c = '\x0c'

/-- Python `str.strip()`: drop leading and trailing whitespace. -/
def pyStrip (s : String) : String :=
  String.mk (((s.data.dropWhile pyIsSpace).reverse.dropWhile pyIsSpace).reverse)

/-- Python `sep.join(xs)`. -/
def joinSep (sep : String) : List String → String
  | [] => ""
  | [s] => s
  | s :: rest => s ++ sep ++ joinSep sep rest

theorem pyStrip_eq_empty_of_all_space {s : String}
    (h : ∀ c ∈ s.data, pyIsSpace c) : pyStrip s = "" := by
  unfold pyStrip
  rw [List.dropWhile_eq_nil_iff.mpr h]
  rfl

theorem all_space_of_pyStrip_eq_empty {s : String}
    (h : pyStrip s = "") : ∀ c ∈ s.data, pyIsSpace c := by
  unfold pyStrip at h
  have hdata : (((s.data.dropWhile pyIsSpace).reverse.dropWhile pyIsSpace).reverse) = [] := by
    have := congrArg String.data h
    simpa using this
  have h2 : (s.data.dropWhile pyIsSpace).reverse.dropWhile pyIsSpace = [] := by
    simpa using congrArg List.reverse hdata
  have h3 : ∀ c ∈ (s.data.dropWhile pyIsSpace).reverse, pyIsSpace c :=
    List.dropWhile_eq_nil_iff.mp h2
  have h4 : ∀ c ∈ s.data.dropWhile pyIsSpace, pyIsSpace c := by
    intro c hc
    exact h3 c (List.mem_reverse.mpr hc)
  intro c hc
  rw [← List.takeWhile_append_dropWhile (p := pyIsSpace) (l := s.data)] at hc
  rcases List.mem_append.mp hc with h5 | h5
  · exact List.mem_takeWhile_imp h5
  · exact h4 c h5

theorem joinSep_space_all_space {xs : List String}
    (h : ∀ x ∈ xs, ∀ c ∈ x.data, pyIsSpace c) :
    ∀ c ∈ (joinSep " " xs).data, pyIsSpace c := by
  induction xs with
  | nil => intro c hc; simp [joinSep] at hc
  | cons s rest ih =>
    cases rest with
    | nil =>
      intro c hc
      exact h s (by simp) c hc
    | cons t rest2 =>
      intro c hc
      simp only [joinSep, String.data_append] at hc
      rcases List.mem_append.mp hc with h1 | h1
      · rcases List.mem_append.mp h1 with h2 | h2
        · exact h s (by simp) c h2
        · have hc2 : c = ' ' := by simpa using h2
          simp [hc2, pyIsSpace]
      · exact ih (fun x hx => h x (List.mem_cons_of_mem s hx)) c h1

theorem joinSep_single (s : String) : joinSep " " [s] = s := rfl

/-! ## Multipath command model (pykickstart/commands/multipath.py)

`FC6_MpPathData` carries `mpdev`, `device`, `rule` from its constructor plus the
`name` and `lineno` attributes that `FC6_MultiPath.parse` sets on each record
(`set_to_obj(ns, dd)`, `dd.lineno = self.lineno`). `FC6_MultiPathData` carries
`name` and `paths`. The command object's mutable state is its `mpaths` list,
passed explicitly. -/

structure FC6_MpPathData where
  name : String
  device : String
  rule : String
  mpdev : String
  lineno : Nat
deriving DecidableEq, Repr

structure FC6_MultiPathData where
  name : String
  paths : List FC6_MpPathData
deriving DecidableEq, Repr

/-- Error raised at multipath.py:94: `formatErrorMsg(self.lineno, msg)` where the
message names the conflicting `path.device` and `path.mpdev`. -/
structure MpParseError where
  lineno : Nat
  device : String
  multipathdev : String
deriving DecidableEq, Repr

/-- The asymmetric return of `FC6_MultiPath.parse`: the new group record when no
group matched, the appended path record when one did. -/
inductive MpParseRet where
  | group (g : FC6_MultiPathData)
  | path (p : FC6_MpPathData)
deriving DecidableEq, Repr

/-- The inner conflict scan of the loop at multipath.py:89-94: the first path
record (groups in order, paths in order) whose `device` equals the candidate's. -/
def findConflict : List FC6_MultiPathData → String → Option FC6_MpPathData
  | [], _ => none
  | g :: rest, device =>
    match g.paths.find? (fun p => decide (p.device = device)) with
    | some p => some p
    | none => findConflict rest device

/-- The parent scan at multipath.py:95-96: `parent` is overwritten on each group
whose `name` equals the candidate's `mpdev`, so it ends as the last such index. -/
def findParentIdx : List FC6_MultiPathData → String → Option Nat
  | [], _ => none
  | g :: rest, mpdev =>
    match findParentIdx rest mpdev with
    | some i => some (i + 1)
    | none => if g.name = mpdev then some 0 else none

/-- In-place `self.mpaths[parent].paths.append(dd)` (multipath.py:103-104). -/
def appendToGroup : List FC6_MultiPathData → Nat → FC6_MpPathData → List FC6_MultiPathData
  | [], _, _ => []
  | g :: rest, 0, dd => { g with paths := g.paths ++ [dd] } :: rest
  | g :: rest, Nat.succ i, dd => g :: appendToGroup rest i dd

/-- The candidate record built at multipath.py:83-86: `set_to_obj` copies the
parsed `name`, `device` and `rule`, then `lineno` and `mpdev` are set. -/
def mpCandidate (lineno : Nat) (name device rule : String) : FC6_MpPathData :=
  { name := name, device := device, rule := rule, mpdev := lastSeg name, lineno := lineno }

/-- Shallow embedding of `FC6_MultiPath.parse` (multipath.py:81-105) acting on the
command's `mpaths` state. The required options `--name`, `--device`, `--rule` are
modelled as the already-extracted values (the `KSOptionParser` collaborator is
external), and `self.lineno` as the `lineno` argument. The single Python loop is
split into the exhaustive conflict scan and the last-match parent scan, which
agree with the source because any conflict raises before either append runs.
Modelled from the spec: the spec (section 4.5 step 4) has the no-match case
append the newly created group record to the command's sequence; in the source
that append is performed by the external dispatcher on the returned record, so
it is folded into this function per the spec's wording. The first component is
the raised error or the returned value; the second is the `mpaths` state after
the call (unchanged when the error is raised, since the loop at lines 89-96
only reads). -/
def FC6_MultiPath_parse (mpaths : List FC6_MultiPathData) (lineno : Nat)
    (name device rule : String) :
    Except MpParseError MpParseRet × List FC6_MultiPathData :=
  let dd := mpCandidate lineno name device rule
  match findConflict mpaths device with
  | some p =>
    (Except.error { lineno := lineno, device := p.device, multipathdev := p.mpdev }, mpaths)
  | none =>
    match findParentIdx mpaths dd.mpdev with
    | none =>
      let mpath : FC6_MultiPathData := { name := dd.name, paths := [dd] }
      (Except.ok (MpParseRet.group mpath), mpaths ++ [mpath])
    | some i => (Except.ok (MpParseRet.path dd), appendToGroup mpaths i dd)

/-- Every device identifier in the model, groups in order, paths in order. -/
def allDevices (st : List FC6_MultiPathData) : List String :=
  st.flatMap (fun g => g.paths.map (fun p => p.device))

/-- States of the `mpaths` sequence reachable by successful parse calls. -/
inductive MpReach : List FC6_MultiPathData → Prop where
  | nil : MpReach []
  | step {st : List FC6_MultiPathData} {l : Nat} {n d r : String} {ret : MpParseRet}
      {st' : List FC6_MultiPathData} : MpReach st →
      FC6_MultiPath_parse st l n d r = (Except.ok ret, st') → MpReach st'

/-! ### Rendering (multipath.py:37-38, 49-55, 67-72) -/

/-- Modelled from the spec: `BaseData.__str__` (external base class) contributes
nothing; the spec describes a group as serializing to exactly one directive line
per path. -/
def baseDataStr : String := ""

/-- `FC6_MpPathData.__str__` (multipath.py:37-38). -/
def mpPathDataStr (p : FC6_MpPathData) : String :=
  " --device=" ++ p.device ++ " --rule=\"" ++ p.rule ++ "\""

/-- Left-to-right concatenation, the effect of a Python `retval +=` loop. -/
def strConcat : List String → String
  | [] => ""
  | s :: rest => s ++ strConcat rest

/-- `FC6_MultiPathData.__str__` (multipath.py:49-55): the `retval +=` loop is one
concatenated line per path, each repeating the group's `name`. -/
def multiPathDataStr (g : FC6_MultiPathData) : String :=
  baseDataStr ++
    strConcat (g.paths.map (fun p => "multipath --name=" ++ g.name ++ mpPathDataStr p ++ "\n"))

/-- `FC6_MultiPath.__str__` (multipath.py:67-72): concatenation over `mpaths`. -/
def multiPathStr (st : List FC6_MultiPathData) : String :=
  strConcat (st.map multiPathDataStr)

/-- The (name, device, rule) triple each rendered line carries; re-parsing the
rendered text feeds exactly these triples back through `parse` (tokenizing
`--name=... --device=... --rule="..."` is the external driver's job). -/
def datalines (st : List FC6_MultiPathData) : List (String × String × String) :=
  st.flatMap (fun g => g.paths.map (fun p => (g.name, p.device, p.rule)))

/-- The text of one rendered directive line for a (name, device, rule) triple. -/
def renderLine (t : String × String × String) : String :=
  "multipath --name=" ++ t.1 ++ (" --device=" ++ t.2.1 ++ " --rule=\"" ++ t.2.2 ++ "\"") ++ "\n"

/-- Feeding a list of directive triples through `parse` on a fresh command. -/
def reparse : List (String × String × String) → List FC6_MultiPathData →
    Except MpParseError (List FC6_MultiPathData)
  | [], st => Except.ok st
  | (n, d, r) :: rest, st =>
    match FC6_MultiPath_parse st 0 n d r with
    | (Except.ok _, st') => reparse rest st'
    | (Except.error e, _) => Except.error e

/-! ### Equivalence of models

The spec's PathRecord consists of `multipathDeviceName`, `deviceIdentifier` and
`udevRule` (`mpdev`, `device`, `rule`); the `name` and `lineno` attributes are
parse-time bookkeeping that rendering does not expose. Two models are equivalent
when they have the same groups in the same order, with equal group names and
pointwise equivalent paths in the same order. -/

def pathEquiv (p q : FC6_MpPathData) : Prop :=
  p.mpdev = q.mpdev ∧ p.device = q.device ∧ p.rule = q.rule

def groupEquiv (g h : FC6_MultiPathData) : Prop :=
  g.name = h.name ∧ List.Forall₂ pathEquiv g.paths h.paths

def modelEquiv (s t : List FC6_MultiPathData) : Prop := List.Forall₂ groupEquiv s t

/-- The model re-parsing produces: each path record re-acquires its group's name
as its `name`, `lastSeg` of it as `mpdev`, and the re-parse line number. -/
def canonPath (gname : String) (p : FC6_MpPathData) : FC6_MpPathData :=
  { name := gname, device := p.device, rule := p.rule, mpdev := lastSeg gname, lineno := 0 }

def canonGroup (g : FC6_MultiPathData) : FC6_MultiPathData :=
  { name := g.name, paths := g.paths.map (canonPath g.name) }

def canonModel (st : List FC6_MultiPathData) : List FC6_MultiPathData :=
  st.map canonGroup

/-! ### Characterizing the two scans -/

theorem mpCandidate_mpdev (l : Nat) (n d r : String) :
    (mpCandidate l n d r).mpdev = lastSeg n := rfl

theorem findConflict_eq_none {st : List FC6_MultiPathData} {d : String} :
    findConflict st d = none ↔ d ∉ allDevices st := by
  induction st with
  | nil => simp [findConflict, allDevices]
  | cons g rest ih =>
    cases hf : g.paths.find? (fun p => decide (p.device = d)) with
    | some p =>
      have hp : p.device = d := by
        have := List.find?_some hf
        simpa using this
      have hmem := List.mem_of_find?_eq_some hf
      simp only [findConflict, hf, allDevices, List.flatMap_cons, List.mem_append]
      constructor
      · intro hcontra; cases hcontra
      · intro hcontra
        exact absurd (Or.inl (List.mem_map.mpr ⟨p, hmem, hp⟩)) hcontra
    | none =>
      have hall := List.find?_eq_none.mp hf
      simp only [findConflict, hf, allDevices, List.flatMap_cons, List.mem_append]
      constructor
      · intro h hcontra
        rcases hcontra with hc | hc
        · rcases List.mem_map.mp hc with ⟨p, hpmem, hpd⟩
          exact hall p hpmem (by simp [hpd])
        · exact (ih.mp h) hc
      · intro h
        exact ih.mpr (fun hc => h (Or.inr hc))

theorem findConflict_eq_some {st : List FC6_MultiPathData} {d : String} {p : FC6_MpPathData}
    (h : findConflict st d = some p) :
    p.device = d ∧ ∃ g ∈ st, p ∈ g.paths := by
  induction st with
  | nil => simp [findConflict] at h
  | cons g rest ih =>
    cases hf : g.paths.find? (fun q => decide (q.device = d)) with
    | some q =>
      simp only [findConflict, hf, Option.some.injEq] at h
      subst h
      refine ⟨by simpa using List.find?_some hf, g, List.mem_cons_self g rest,
        List.mem_of_find?_eq_some hf⟩
    | none =>
      simp only [findConflict, hf] at h
      obtain ⟨h1, g2, hg2, h3⟩ := ih h
      exact ⟨h1, g2, List.mem_cons_of_mem g hg2, h3⟩

theorem findConflict_exists_of_mem {st : List FC6_MultiPathData} {d : String}
    (h : d ∈ allDevices st) : ∃ p, findConflict st d = some p := by
  cases hf : findConflict st d with
  | none => exact absurd h (findConflict_eq_none.mp hf)
  | some p => exact ⟨p, rfl⟩

theorem findParentIdx_eq_none {st : List FC6_MultiPathData} {m : String} :
    findParentIdx st m = none ↔ ∀ g ∈ st, g.name ≠ m := by
  induction st with
  | nil => simp [findParentIdx]
  | cons g rest ih =>
    cases h : findParentIdx rest m with
    | some i =>
      simp only [findParentIdx, h]
      constructor
      · intro hc; cases hc
      · intro hall
        have := ih.mpr (fun g2 hg2 => hall g2 (List.mem_cons_of_mem g hg2))
        rw [h] at this
        cases this
    | none =>
      simp only [findParentIdx, h]
      constructor
      · intro hc g2 hg2
        rcases List.mem_cons.mp hg2 with h2 | h2
        · subst h2
          by_cases hn : g2.name = m
          · rw [if_pos hn] at hc; cases hc
          · exact hn
        · exact (ih.mp h) g2 h2
      · intro hall
        rw [if_neg (hall g (List.mem_cons_self g rest))]

theorem findParentIdx_eq_some {st : List FC6_MultiPathData} {m : String} {i : Nat}
    (h : findParentIdx st m = some i) :
    ∃ pre g suf, st = pre ++ g :: suf ∧ pre.length = i ∧ g.name = m := by
  induction st generalizing i with
  | nil => simp [findParentIdx] at h
  | cons g rest ih =>
    cases h2 : findParentIdx rest m with
    | some j =>
      simp only [findParentIdx, h2, Option.some.injEq] at h
      obtain ⟨pre, g2, suf, heq, hlen, hname⟩ := ih h2
      exact ⟨g :: pre, g2, suf, by rw [heq]; rfl, by simp [hlen, h], hname⟩
    | none =>
      simp only [findParentIdx, h2] at h
      by_cases hn : g.name = m
      · rw [if_pos hn, Option.some.injEq] at h
        exact ⟨[], g, rest, rfl, by simp [h], hn⟩
      · rw [if_neg hn] at h; cases h

theorem findParentIdx_append_last {m : String} (xs : List FC6_MultiPathData)
    {g : FC6_MultiPathData} (hg : g.name = m) :
    findParentIdx (xs ++ [g]) m = some xs.length := by
  induction xs with
  | nil => simp [findParentIdx, hg]
  | cons x rest ih =>
    have hstep : findParentIdx (x :: (rest ++ [g])) m =
        match findParentIdx (rest ++ [g]) m with
        | some i => some (i + 1)
        | none => if x.name = m then some 0 else none := rfl
    rw [List.cons_append, hstep, ih]
    rfl

theorem appendToGroup_eq (pre suf : List FC6_MultiPathData) (g : FC6_MultiPathData)
    (dd : FC6_MpPathData) :
    appendToGroup (pre ++ g :: suf) pre.length dd =
      pre ++ { g with paths := g.paths ++ [dd] } :: suf := by
  induction pre with
  | nil => rfl
  | cons x rest ih => simpa [appendToGroup] using ih

theorem allDevices_append (a b : List FC6_MultiPathData) :
    allDevices (a ++ b) = allDevices a ++ allDevices b := by
  simp [allDevices]

theorem allDevices_cons (g : FC6_MultiPathData) (rest : List FC6_MultiPathData) :
    allDevices (g :: rest) = g.paths.map (fun p => p.device) ++ allDevices rest := by
  simp [allDevices]

/-! ### The invariant of reachable multipath models -/

/-- What successful parse calls preserve: all devices are distinct; every group
holds its creating record first (sharing the group's full name and deriving
`mpdev` from it); every later record in a group was matched against the group's
name; groups holding a matched record have a fixed-point name under `lastSeg`;
and no group's name equals the derived device name of a group created later. -/
structure MpInv (st : List FC6_MultiPathData) : Prop where
  nodup : (allDevices st).Nodup
  headOk : ∀ g ∈ st, ∃ p tl, g.paths = p :: tl ∧ p.name = g.name ∧ p.mpdev = lastSeg g.name
  tailOk : ∀ g ∈ st, ∀ p ∈ g.paths.tail, p.mpdev = g.name
  nameFix : ∀ g ∈ st, g.paths.tail ≠ [] → lastSeg g.name = g.name
  sep : List.Pairwise (fun g h => g.name ≠ lastSeg h.name) st

theorem pairwise_middle_congr {α : Type} {R : α → α → Prop} {pre suf : List α} {g g2 : α}
    (h : List.Pairwise R (pre ++ g :: suf))
    (hg : ∀ x, (R x g ↔ R x g2) ∧ (R g x ↔ R g2 x)) :
    List.Pairwise R (pre ++ g2 :: suf) := by
  rw [List.pairwise_append] at h ⊢
  obtain ⟨h1, h2, h3⟩ := h
  rw [List.pairwise_cons] at h2
  refine ⟨h1, ?_, ?_⟩
  · rw [List.pairwise_cons]
    exact ⟨fun x hx => (hg x).2.mp (h2.1 x hx), h2.2⟩
  · intro a ha b hb
    rcases List.mem_cons.mp hb with rfl | hb2
    · exact (hg a).1.mp (h3 a ha g (List.mem_cons_self g suf))
    · exact h3 a ha b (List.mem_cons_of_mem g hb2)

theorem mpCandidate_name (l : Nat) (n d r : String) : (mpCandidate l n d r).name = n := rfl

theorem mpCandidate_device (l : Nat) (n d r : String) : (mpCandidate l n d r).device = d := rfl

theorem mpInv_nil : MpInv [] :=
  ⟨by simp [allDevices], by simp, by simp, by simp, by simp⟩

theorem mpInv_step {st : List FC6_MultiPathData} {l : Nat} {n d r : String}
    {ret : MpParseRet} {st' : List FC6_MultiPathData} (inv : MpInv st)
    (h : FC6_MultiPath_parse st l n d r = (Except.ok ret, st')) : MpInv st' := by
  cases hc : findConflict st d with
  | some p =>
    simp only [FC6_MultiPath_parse, hc] at h
    exact absurd (congrArg Prod.fst h) (by simp)
  | none =>
    have hd : d ∉ allDevices st := findConflict_eq_none.mp hc
    simp only [FC6_MultiPath_parse, hc, mpCandidate_mpdev] at h
    cases hp : findParentIdx st (lastSeg n) with
    | none =>
      simp only [hp] at h
      injection h with h1 h2
      subst h2
      have hnames : ∀ g ∈ st, g.name ≠ lastSeg n := findParentIdx_eq_none.mp hp
      refine ⟨?_, ?_, ?_, ?_, ?_⟩
      · rw [allDevices_append, List.nodup_append]
        refine ⟨inv.nodup, by simp [allDevices, mpCandidate], ?_⟩
        intro a ha hb
        have : a = d := by
          simpa [allDevices, mpCandidate] using hb
        subst this
        exact hd ha
      · intro g2 hg2
        rcases List.mem_append.mp hg2 with h2 | h2
        · exact inv.headOk g2 h2
        · have hg2e := List.mem_singleton.mp h2
          subst hg2e
          exact ⟨mpCandidate l n d r, [], rfl, rfl, rfl⟩
      · intro g2 hg2 q hq
        rcases List.mem_append.mp hg2 with h2 | h2
        · exact inv.tailOk g2 h2 q hq
        · have hg2e := List.mem_singleton.mp h2
          subst hg2e
          simp at hq
      · intro g2 hg2 ht
        rcases List.mem_append.mp hg2 with h2 | h2
        · exact inv.nameFix g2 h2 ht
        · have hg2e := List.mem_singleton.mp h2
          subst hg2e
          simp at ht
      · rw [List.pairwise_append]
        refine ⟨inv.sep, by simp, ?_⟩
        intro a ha b hb
        have hbe := List.mem_singleton.mp hb
        subst hbe
        show a.name ≠ lastSeg (mpCandidate l n d r).name
        rw [mpCandidate_name]
        exact hnames a ha
    | some i =>
      simp only [hp] at h
      injection h with h1 h2
      obtain ⟨pre, g, suf, hst, hlen, hname⟩ := findParentIdx_eq_some hp
      subst hst
      subst hlen
      rw [appendToGroup_eq] at h2
      subst h2
      obtain ⟨p0, tl, hpaths, hp0n, hp0m⟩ := inv.headOk g (by simp)
      refine ⟨?_, ?_, ?_, ?_, ?_⟩
      · have hperm : List.Perm
            (allDevices (pre ++ { g with paths := g.paths ++ [mpCandidate l n d r] } :: suf))
            (allDevices (pre ++ g :: suf) ++ [d]) := by
          rw [List.perm_iff_count]
          intro a
          simp [allDevices_append, allDevices_cons, List.count_append, List.count_cons,
            List.count_nil, mpCandidate]
        have hnd2 : (allDevices (pre ++ g :: suf) ++ [d]).Nodup := by
          rw [List.nodup_append]
          refine ⟨inv.nodup, by simp, ?_⟩
          intro a ha hb
          have : a = d := by simpa using hb
          subst this
          exact hd ha
        exact (hperm.symm).nodup hnd2
      · intro g2 hg2
        rcases List.mem_append.mp hg2 with h2 | h2
        · exact inv.headOk g2 (List.mem_append.mpr (Or.inl h2))
        · rcases List.mem_cons.mp h2 with h3 | h3
          · subst h3
            refine ⟨p0, tl ++ [mpCandidate l n d r], ?_, hp0n, hp0m⟩
            show g.paths ++ [mpCandidate l n d r] = p0 :: (tl ++ [mpCandidate l n d r])
            rw [hpaths]
            rfl
          · exact inv.headOk g2 (by simp [h3])
      · intro g2 hg2 q hq
        rcases List.mem_append.mp hg2 with h2 | h2
        · exact inv.tailOk g2 (List.mem_append.mpr (Or.inl h2)) q hq
        · rcases List.mem_cons.mp h2 with h3 | h3
          · subst h3
            have htl : ({ g with paths := g.paths ++ [mpCandidate l n d r] }
                : FC6_MultiPathData).paths.tail = tl ++ [mpCandidate l n d r] := by
              show (g.paths ++ [mpCandidate l n d r]).tail = tl ++ [mpCandidate l n d r]
              rw [hpaths]
              rfl
            rw [htl] at hq
            rcases List.mem_append.mp hq with h4 | h4
            · exact inv.tailOk g (by simp) q (by rw [hpaths]; exact h4)
            · have : q = mpCandidate l n d r := by simpa using h4
              subst this
              show (mpCandidate l n d r).mpdev = g.name
              rw [mpCandidate_mpdev, hname]
          · exact inv.tailOk g2 (by simp [h3]) q hq
      · intro g2 hg2 ht
        rcases List.mem_append.mp hg2 with h2 | h2
        · exact inv.nameFix g2 (List.mem_append.mpr (Or.inl h2)) ht
        · rcases List.mem_cons.mp h2 with h3 | h3
          · subst h3
            show lastSeg g.name = g.name
            rw [hname, lastSeg_idem]
          · exact inv.nameFix g2 (by simp [h3]) ht
      · exact pairwise_middle_congr inv.sep (fun x => ⟨Iff.rfl, Iff.rfl⟩)

theorem mpInv_of_reach {st : List FC6_MultiPathData} (h : MpReach st) : MpInv st := by
  induction h with
  | nil => exact mpInv_nil
  | step hprev heq ih => exact mpInv_step ih heq

/-! ### Round-trip: re-parsing a rendered model -/

theorem parse_step_new (st : List FC6_MultiPathData) (l : Nat) (n d r : String)
    (hc : findConflict st d = none) (hp : findParentIdx st (lastSeg n) = none) :
    FC6_MultiPath_parse st l n d r =
      (Except.ok (MpParseRet.group { name := n, paths := [mpCandidate l n d r] }),
       st ++ [{ name := n, paths := [mpCandidate l n d r] }]) := by
  simp only [FC6_MultiPath_parse, hc, mpCandidate_mpdev, hp]
  rfl

theorem parse_step_match (st : List FC6_MultiPathData) (l : Nat) (n d r : String) (i : Nat)
    (hc : findConflict st d = none) (hp : findParentIdx st (lastSeg n) = some i) :
    FC6_MultiPath_parse st l n d r =
      (Except.ok (MpParseRet.path (mpCandidate l n d r)),
       appendToGroup st i (mpCandidate l n d r)) := by
  simp only [FC6_MultiPath_parse, hc, mpCandidate_mpdev, hp]

theorem canonModel_append (a b : List FC6_MultiPathData) :
    canonModel (a ++ b) = canonModel a ++ canonModel b := by
  simp [canonModel]

theorem allDevices_canonModel (st : List FC6_MultiPathData) :
    allDevices (canonModel st) = allDevices st := by
  simp only [allDevices, canonModel]
  induction st with
  | nil => rfl
  | cons g rest ih =>
    simp only [List.map_cons, List.flatMap_cons, ih]
    congr 1
    simp [canonGroup, canonPath, List.map_map]

theorem datalines_cons (g : FC6_MultiPathData) (rest : List FC6_MultiPathData) :
    datalines (g :: rest) =
      g.paths.map (fun p => (g.name, p.device, p.rule)) ++ datalines rest := by
  simp [datalines]

theorem reparse_append (a b : List (String × String × String))
    (st : List FC6_MultiPathData) :
    reparse (a ++ b) st =
      match reparse a st with
      | Except.ok st2 => reparse b st2
      | Except.error e => Except.error e := by
  induction a generalizing st with
  | nil => rfl
  | cons t rest ih =>
    obtain ⟨n, d, r⟩ := t
    rw [List.cons_append]
    cases hp : FC6_MultiPath_parse st 0 n d r with
    | mk fst snd =>
      cases fst with
      | ok v =>
        simp only [reparse, hp]
        exact ih snd
      | error e => simp only [reparse, hp]

theorem reparse_group_tail (done : List FC6_MultiPathData) (gname : String)
    (tl cp : List FC6_MpPathData)
    (hfix : tl ≠ [] → lastSeg gname = gname)
    (hdev1 : ∀ p ∈ tl, p.device ∉ allDevices done)
    (hdev2 : ∀ p ∈ tl, p.device ∉ cp.map (fun q => q.device))
    (hdtl : (tl.map (fun p => p.device)).Nodup) :
    reparse (tl.map (fun p => (gname, p.device, p.rule)))
        (canonModel done ++ [{ name := gname, paths := cp }]) =
      Except.ok (canonModel done ++
        [{ name := gname, paths := cp ++ tl.map (canonPath gname) }]) := by
  induction tl generalizing cp with
  | nil => simp [reparse]
  | cons p tl2 ih =>
    have hc : findConflict (canonModel done ++ [{ name := gname, paths := cp }])
        p.device = none := by
      rw [findConflict_eq_none, allDevices_append, allDevices_cons]
      intro hmem
      rcases List.mem_append.mp hmem with hm | hm
      · rw [allDevices_canonModel] at hm
        exact hdev1 p (by simp) hm
      · rcases List.mem_append.mp hm with hm2 | hm2
        · exact hdev2 p (by simp) hm2
        · simp [allDevices] at hm2
    have hfix2 : lastSeg gname = gname := hfix (by simp)
    have hp : findParentIdx (canonModel done ++ [{ name := gname, paths := cp }])
        (lastSeg gname) = some (canonModel done).length := by
      rw [hfix2]
      exact findParentIdx_append_last (canonModel done) rfl
    rw [List.map_cons]
    have hstep := parse_step_match _ 0 gname p.device p.rule _ hc hp
    simp only [reparse, hstep]
    have happ : appendToGroup (canonModel done ++ [{ name := gname, paths := cp }])
        (canonModel done).length (mpCandidate 0 gname p.device p.rule) =
        canonModel done ++ [{ name := gname, paths := cp ++ [canonPath gname p] }] := by
      have h0 := appendToGroup_eq (canonModel done) [] { name := gname, paths := cp }
        (mpCandidate 0 gname p.device p.rule)
      simpa using h0
    rw [happ]
    have hdev2b : ∀ q ∈ tl2, q.device ∉ (cp ++ [canonPath gname p]).map (fun q => q.device) := by
      intro q hq hmem
      rw [List.map_append, List.mem_append] at hmem
      rcases hmem with hm | hm
      · exact hdev2 q (by simp [hq]) hm
      · have hqp : q.device = p.device := by simpa [canonPath] using hm
        rw [List.map_cons, List.nodup_cons] at hdtl
        exact hdtl.1 (hqp ▸ List.mem_map.mpr ⟨q, hq, rfl⟩)
    have ih2 := ih (cp ++ [canonPath gname p]) (fun _ => hfix2)
      (fun q hq => hdev1 q (by simp [hq])) hdev2b
      (by rw [List.map_cons, List.nodup_cons] at hdtl; exact hdtl.2)
    rw [ih2]
    simp

theorem reparse_group (done : List FC6_MultiPathData) (g : FC6_MultiPathData)
    (p0 : FC6_MpPathData) (tl : List FC6_MpPathData)
    (hpaths : g.paths = p0 :: tl)
    (hfix : g.paths.tail ≠ [] → lastSeg g.name = g.name)
    (hdev1 : ∀ p ∈ g.paths, p.device ∉ allDevices done)
    (hdevg : (g.paths.map (fun p => p.device)).Nodup)
    (hsep : ∀ x ∈ done, x.name ≠ lastSeg g.name) :
    reparse (g.paths.map (fun p => (g.name, p.device, p.rule))) (canonModel done) =
      Except.ok (canonModel done ++ [canonGroup g]) := by
  rw [hpaths, List.map_cons]
  have hc : findConflict (canonModel done) p0.device = none := by
    rw [findConflict_eq_none, allDevices_canonModel]
    exact hdev1 p0 (by simp [hpaths])
  have hp : findParentIdx (canonModel done) (lastSeg g.name) = none := by
    rw [findParentIdx_eq_none]
    intro g2 hg2
    rcases List.mem_map.mp hg2 with ⟨g0, hg0, hg0e⟩
    have : g2.name = g0.name := by rw [← hg0e]; rfl
    rw [this]
    exact hsep g0 hg0
  have hstep := parse_step_new (canonModel done) 0 g.name p0.device p0.rule hc hp
  simp only [reparse, hstep]
  rw [hpaths] at hdevg
  rw [List.map_cons, List.nodup_cons] at hdevg
  have htail := reparse_group_tail done g.name tl [canonPath g.name p0]
    (fun ht => hfix (by rw [hpaths]; simpa using ht))
    (fun p hp2 => hdev1 p (by rw [hpaths]; exact List.mem_cons_of_mem p0 hp2))
    (by
      intro q hq hmem
      have hqp : q.device = p0.device := by simpa [canonPath] using hmem
      exact hdevg.1 (hqp ▸ List.mem_map.mpr ⟨q, hq, rfl⟩))
    hdevg.2
  have hcp : ({ name := g.name, paths := [mpCandidate 0 g.name p0.device p0.rule] }
      : FC6_MultiPathData) = { name := g.name, paths := [canonPath g.name p0] } := rfl
  rw [hcp, htail]
  simp [canonGroup, hpaths]

theorem reparse_go (todo : List FC6_MultiPathData) :
    ∀ done : List FC6_MultiPathData, MpInv (done ++ todo) →
      reparse (datalines todo) (canonModel done) = Except.ok (canonModel (done ++ todo)) := by
  induction todo with
  | nil =>
    intro done _
    simp [datalines, reparse]
  | cons g rest ih =>
    intro done inv
    rw [datalines_cons, reparse_append]
    have hg_mem : g ∈ done ++ g :: rest := by simp
    obtain ⟨p0, tl, hpaths, hp0n, hp0m⟩ := inv.headOk g hg_mem
    have hnodup := inv.nodup
    rw [allDevices_append, allDevices_cons, List.nodup_append] at hnodup
    obtain ⟨hndA, hndBC, hdisj⟩ := hnodup
    rw [List.nodup_append] at hndBC
    have hdev1 : ∀ p ∈ g.paths, p.device ∉ allDevices done := by
      intro p hp hmem
      exact hdisj hmem (List.mem_append.mpr (Or.inl (List.mem_map.mpr ⟨p, hp, rfl⟩)))
    have hsep : ∀ x ∈ done, x.name ≠ lastSeg g.name := by
      have hpw := inv.sep
      rw [List.pairwise_append] at hpw
      intro x hx
      exact hpw.2.2 x hx g (List.mem_cons_self g rest)
    rw [reparse_group done g p0 tl hpaths (inv.nameFix g hg_mem) hdev1 hndBC.1 hsep]
    have hcm : canonModel done ++ [canonGroup g] = canonModel (done ++ [g]) := by
      simp [canonModel]
    rw [hcm]
    have hassoc : (done ++ [g]) ++ rest = done ++ g :: rest := by simp
    have ih2 := ih (done ++ [g]) (by rw [hassoc]; exact inv)
    rw [hassoc] at ih2
    exact ih2

theorem modelEquiv_canon {st : List FC6_MultiPathData} (inv : MpInv st) :
    modelEquiv st (canonModel st) := by
  unfold modelEquiv canonModel
  rw [List.forall₂_map_right_iff]
  rw [List.forall₂_same]
  intro g hg
  obtain ⟨p0, tl, hpaths, hp0n, hp0m⟩ := inv.headOk g hg
  refine ⟨rfl, ?_⟩
  show List.Forall₂ pathEquiv g.paths (g.paths.map (canonPath g.name))
  rw [List.forall₂_map_right_iff, List.forall₂_same]
  intro p hp
  refine ⟨?_, rfl, rfl⟩
  show p.mpdev = lastSeg g.name
  rw [hpaths] at hp
  rcases List.mem_cons.mp hp with hp1 | hp1
  · subst hp1
    exact hp0m
  · have htl : p ∈ g.paths.tail := by rw [hpaths]; exact hp1
    have h1 : p.mpdev = g.name := inv.tailOk g hg p htl
    have h2 : lastSeg g.name = g.name := by
      apply inv.nameFix g hg
      rw [hpaths]
      intro hcon
      rw [show (p0 :: tl).tail = tl from rfl] at hcon
      rw [hcon] at hp1
      cases hp1
    rw [h1, h2]

theorem strConcat_append (a b : List String) :
    strConcat (a ++ b) = strConcat a ++ strConcat b := by
  induction a with
  | nil => simp [strConcat]
  | cons s rest ih => simp [strConcat, ih, String.append_assoc]

/-- The rendered text of the command is exactly the concatenation of one
`renderLine` per (name, device, rule) triple of `datalines`. -/
theorem multiPathStr_eq_datalines (st : List FC6_MultiPathData) :
    multiPathStr st = strConcat ((datalines st).map renderLine) := by
  induction st with
  | nil => rfl
  | cons g rest ih =>
    rw [datalines_cons, List.map_append, strConcat_append, ← ih]
    show multiPathDataStr g ++ multiPathStr rest = _
    congr 1
    show multiPathDataStr g =
      strConcat ((g.paths.map (fun p => (g.name, p.device, p.rule))).map renderLine)
    rw [List.map_map]
    show baseDataStr ++ strConcat (g.paths.map
      (fun p => "multipath --name=" ++ g.name ++ mpPathDataStr p ++ "\n")) = _
    have hb : baseDataStr = "" := rfl
    rw [hb]
    have hemp : ∀ s : String, "" ++ s = s := by intro s; simp
    rw [hemp]
    exact congrArg strConcat (List.map_congr_left (fun p hp => rfl))

/-! ## Script sections (pykickstart/sections.py:136-223)

A `ScriptSection` object's mutable state is its `timesSeen` counter (from
`Section`), its `_script` accumulation dict, and the handler's shared `scripts`
list it appends to. The four concrete subclasses differ only in their open tag,
in the constant `type` their `_resetScript` writes, in `PostScriptSection`
setting `chroot = True` on reset, and in `PostScriptSection`'s parser defining
the extra `--nochroot` option. -/

inductive ScriptKind where
  | pre
  | preInstall
  | post
  | traceback
deriving DecidableEq, Repr

/-- The `_script` dict (sections.py:151-153) plus the `type` key each concrete
subclass's `_resetScript` adds. -/
structure ScriptDict where
  interp : String
  log : Option String
  errorOnFail : Bool
  lineno : Option Nat
  chroot : Bool
  body : List String
  type : ScriptKind
deriving DecidableEq, Repr

/-- `_resetScript` (sections.py:151-153) followed by the subclass override:
`PostScriptSection._resetScript` sets `chroot = True` (sections.py:213-216),
and every subclass stores its constant `type`. -/
def resetScript (k : ScriptKind) : ScriptDict :=
  { interp := "/bin/sh", log := none, errorOnFail := false, lineno := none,
    chroot := match k with | ScriptKind.post => true | _ => false,
    body := [], type := k }

/-- Modelled from the spec: the `dataObj` a handler registers for script
sections builds the ScriptRecord out of the body and the keyword arguments
finalize passes (sections.py:162-170); the spec describes the result as an
interpreter, execution-context flags, line number, log file and the body's
raw lines, newline-preserving. -/
structure ScriptRecord where
  interp : String
  inChroot : Bool
  lineno : Option Nat
  logfile : Option String
  errorOnFail : Bool
  type : ScriptKind
  body : List String
deriving DecidableEq, Repr

/-- A `ScriptSection` object together with the handler state it mutates. -/
structure ScriptSectionState where
  kind : ScriptKind
  timesSeen : Nat
  script : ScriptDict
  scripts : List ScriptRecord
deriving DecidableEq, Repr

/-- `ScriptSection.__init__` (sections.py:139-142): resets the dict; the
occurrence counter starts at 0 and the handler's script list is taken empty. -/
def initScriptSection (k : ScriptKind) : ScriptSectionState :=
  { kind := k, timesSeen := 0, script := resetScript k, scripts := [] }

/-- The namespace the section's option parser returns for a header
(sections.py:144-149, 208-211): `--erroronfail`, `--interpreter`, `--log`;
`nochroot` is `some flag` exactly when the parser defined the option (only
`PostScriptSection` adds it), so that `hasattr(ns, "nochroot")` is its
`isSome`. -/
structure ScriptNs where
  errorOnFail : Bool
  interpreter : String
  log : Option String
  nochroot : Option Bool
deriving DecidableEq, Repr

/-- `ScriptSection.handleLine` (sections.py:155-156). -/
def scriptHandleLine (s : ScriptSectionState) (line : String) : ScriptSectionState :=
  { s with script := { s.script with body := s.script.body ++ [line] } }

/-- `ScriptSection.handleHeader` (sections.py:174-189): increments `timesSeen`
(via `Section.handleHeader`), stores the parsed options, and flips `chroot`
only when the namespace has the `nochroot` attribute. -/
def scriptHandleHeader (s : ScriptSectionState) (lineno : Nat) (ns : ScriptNs) :
    ScriptSectionState :=
  { s with
    timesSeen := s.timesSeen + 1,
    script := { s.script with
      interp := ns.interpreter,
      lineno := some lineno,
      log := ns.log,
      errorOnFail := ns.errorOnFail,
      chroot := match ns.nochroot with
        | some nc => !nc
        | none => s.script.chroot } }

/-- The record finalize builds (sections.py:162-170). -/
def mkScriptRecord (d : ScriptDict) : ScriptRecord :=
  { interp := d.interp, inChroot := d.chroot, lineno := d.lineno, logfile := d.log,
    errorOnFail := d.errorOnFail, type := d.type, body := d.body }

/-- `ScriptSection.finalize` (sections.py:158-172): an all-whitespace body
returns early with nothing changed (in particular the dict is not reset);
otherwise the record is built, the dict reset and the record appended. -/
def scriptFinalize (s : ScriptSectionState) : ScriptSectionState :=
  if pyStrip (joinSep " " s.script.body) = "" then s
  else { s with script := resetScript s.kind,
                scripts := s.scripts ++ [mkScriptRecord s.script] }

/-- Which namespaces a kind's parser can produce: only `PostScriptSection`'s
parser defines `nochroot` (sections.py:208-211), so its namespaces always have
the attribute and the other kinds' never do. -/
def nsFor (k : ScriptKind) (ns : ScriptNs) : Prop :=
  match k with
  | ScriptKind.post => ns.nochroot ≠ none
  | _ => ns.nochroot = none

/-- Script-section states reachable through the lifecycle hooks. -/
inductive SecReach (k : ScriptKind) : ScriptSectionState → Prop where
  | init : SecReach k (initScriptSection k)
  | header {s : ScriptSectionState} (lineno : Nat) (ns : ScriptNs) : SecReach k s →
      nsFor k ns → SecReach k (scriptHandleHeader s lineno ns)
  | line {s : ScriptSectionState} (l : String) : SecReach k s →
      SecReach k (scriptHandleLine s l)
  | fin {s : ScriptSectionState} : SecReach k s → SecReach k (scriptFinalize s)

/-! ## Packages section header (pykickstart/sections.py:225-272) -/

inductive HandleMissing where
  | prompt
  | ignore
deriving DecidableEq, Repr

/-- The shared `handler.packages` record, restricted to the fields
`PackageSection.handleHeader` writes (sections.py:257-272). -/
structure PackagesRec where
  excludeDocs : Bool
  addBase : Bool
  handleMissing : HandleMissing
  default : Bool
  instLangs : Option String
  nocore : Bool
  multiLib : Bool
  seen : Bool
deriving DecidableEq, Repr

/-- The namespace the `%packages` option parser returns (sections.py:239-250).
`resolveDeps` is parsed by the source but never read by `handleHeader`, so it
is omitted; `instLangs` is `none` when the option was not given. -/
structure PkgNs where
  excludedocs : Bool
  ignoremissing : Bool
  nobase : Bool
  nocore : Bool
  defaultPackages : Bool
  instLangs : Option String
  multiLib : Bool
deriving DecidableEq, Repr

/-- The two `KickstartParseError`s of sections.py:252-255. -/
inductive PkgErr where
  | defaultNobase (lineno : Nat)
  | defaultNocore (lineno : Nat)
deriving DecidableEq, Repr

def pkgErrLineno : PkgErr → Nat
  | PkgErr.defaultNobase l => l
  | PkgErr.defaultNocore l => l

/-- `PackageSection.handleHeader` (sections.py:233-272): `timesSeen` increments
first (`Section.handleHeader` runs before the option parsing); the two
exclusivity checks raise in order; otherwise every field is written onto the
shared record, `default` and `instLangs` only conditionally, and `seen` set. -/
def packagesHandleHeader (pkgs : PackagesRec) (timesSeen lineno : Nat) (ns : PkgNs) :
    Except PkgErr (PackagesRec × Nat) :=
  let ts := timesSeen + 1
  if ns.defaultPackages && ns.nobase then
    Except.error (PkgErr.defaultNobase lineno)
  else if ns.defaultPackages && ns.nocore then
    Except.error (PkgErr.defaultNocore lineno)
  else
    Except.ok
      ({ excludeDocs := ns.excludedocs,
         addBase := !ns.nobase,
         handleMissing := if ns.ignoremissing then HandleMissing.ignore else HandleMissing.prompt,
         default := if ns.defaultPackages then true else pkgs.default,
         instLangs := match ns.instLangs with
           | some v => some v
           | none => pkgs.instLangs,
         nocore := ns.nocore,
         multiLib := ns.multiLib,
         seen := true }, ts)

/-! ## Claim theorems: multipath -/

/-- Two successful calls: `mpatha/sda` then `mpatha/sdb` (one group, two paths). -/
def mpExample2 : List FC6_MultiPathData :=
  (FC6_MultiPath_parse ((FC6_MultiPath_parse [] 1 "mpatha" "sda" "a").2) 2 "mpatha" "sdb" "b").2

theorem mpExample2_reach : MpReach mpExample2 := by
  have e1 : FC6_MultiPath_parse [] 1 "mpatha" "sda" "a" =
      (Except.ok (MpParseRet.group
        { name := "mpatha", paths := [mpCandidate 1 "mpatha" "sda" "a"] }),
       [{ name := "mpatha", paths := [mpCandidate 1 "mpatha" "sda" "a"] }]) := by rfl
  have h1 := MpReach.step MpReach.nil e1
  have e2 : FC6_MultiPath_parse
      [{ name := "mpatha", paths := [mpCandidate 1 "mpatha" "sda" "a"] }]
      2 "mpatha" "sdb" "b" =
      (Except.ok (MpParseRet.path (mpCandidate 2 "mpatha" "sdb" "b")),
       [{ name := "mpatha",
          paths := [mpCandidate 1 "mpatha" "sda" "a", mpCandidate 2 "mpatha" "sdb" "b"] }]) := by
    rfl
  have h2 := MpReach.step h1 e2
  have hm : mpExample2 =
      [{ name := "mpatha",
         paths := [mpCandidate 1 "mpatha" "sda" "a", mpCandidate 2 "mpatha" "sdb" "b"] }] := by
    rfl
  rw [hm]
  exact h2

/-- Two successful calls where the second `--name` carries directory components:
`mpatha/sda` then `/dev/mapper/mpatha/sdb` (the second joins the first group). -/
def mpExampleMix : List FC6_MultiPathData :=
  (FC6_MultiPath_parse ((FC6_MultiPath_parse [] 1 "mpatha" "sda" "a").2)
    2 "/dev/mapper/mpatha" "sdb" "b").2

theorem mpExampleMix_reach : MpReach mpExampleMix := by
  have e1 : FC6_MultiPath_parse [] 1 "mpatha" "sda" "a" =
      (Except.ok (MpParseRet.group
        { name := "mpatha", paths := [mpCandidate 1 "mpatha" "sda" "a"] }),
       [{ name := "mpatha", paths := [mpCandidate 1 "mpatha" "sda" "a"] }]) := by rfl
  have h1 := MpReach.step MpReach.nil e1
  have e2 : FC6_MultiPath_parse
      [{ name := "mpatha", paths := [mpCandidate 1 "mpatha" "sda" "a"] }]
      2 "/dev/mapper/mpatha" "sdb" "b" =
      (Except.ok (MpParseRet.path (mpCandidate 2 "/dev/mapper/mpatha" "sdb" "b")),
       [{ name := "mpatha",
          paths := [mpCandidate 1 "mpatha" "sda" "a",
                    mpCandidate 2 "/dev/mapper/mpatha" "sdb" "b"] }]) := by
    rfl
  have h2 := MpReach.step h1 e2
  have hm : mpExampleMix =
      [{ name := "mpatha",
         paths := [mpCandidate 1 "mpatha" "sda" "a",
                   mpCandidate 2 "/dev/mapper/mpatha" "sdb" "b"] }] := by
    rfl
  rw [hm]
  exact h2

/-- C1: in every model built by successful parse calls no two path records share
a device identifier, and a parse call whose `--device` is already present leaves
the model unchanged and raises the identity-conflict error carrying the current
line number, the conflicting device, and the `mpdev` of the path record that
already owns it. -/
theorem mp_C1_device_unique (st : List FC6_MultiPathData) (h : MpReach st)
    (lineno : Nat) (n d r : String) :
    (allDevices st).Nodup ∧
    (d ∈ allDevices st →
      (FC6_MultiPath_parse st lineno n d r).2 = st ∧
      ∃ g ∈ st, ∃ p ∈ g.paths, p.device = d ∧
        (FC6_MultiPath_parse st lineno n d r).1 =
          Except.error { lineno := lineno, device := d, multipathdev := p.mpdev }) := by
  have inv := mpInv_of_reach h
  refine ⟨inv.nodup, ?_⟩
  intro hd
  obtain ⟨p, hc⟩ := findConflict_exists_of_mem hd
  obtain ⟨hpd, g, hg, hpmem⟩ := findConflict_eq_some hc
  have hparse : FC6_MultiPath_parse st lineno n d r =
      (Except.error { lineno := lineno, device := p.device, multipathdev := p.mpdev }, st) := by
    simp only [FC6_MultiPath_parse, hc]
  rw [hparse, hpd]
  exact ⟨rfl, g, hg, p, hpmem, hpd, rfl⟩

theorem mp_C1_device_unique_witness :
    (allDevices mpExample2).Nodup ∧
    ((FC6_MultiPath_parse mpExample2 3 "mpathb" "sda" "c").2 = mpExample2 ∧
      ∃ g ∈ mpExample2, ∃ p ∈ g.paths, p.device = "sda" ∧
        (FC6_MultiPath_parse mpExample2 3 "mpathb" "sda" "c").1 =
          Except.error { lineno := 3, device := "sda", multipathdev := p.mpdev }) :=
  ⟨(mp_C1_device_unique mpExample2 mpExample2_reach 3 "mpathb" "sda" "c").1,
   (mp_C1_device_unique mpExample2 mpExample2_reach 3 "mpathb" "sda" "c").2 (by decide)⟩

/-- C2 counterexample: `--name=/dev/mapper/mpatha --device=sda` followed by
`--name=mpatha --device=sdb` does NOT append the second record to the first
group; the comparison `mpath.name == dd.mpdev` matches the stored full name
against the derived last segment, so a second, separate group is created. -/
theorem mp_C2_counterexample :
    ((FC6_MultiPath_parse ((FC6_MultiPath_parse [] 1 "/dev/mapper/mpatha" "sda" "a").2)
        2 "mpatha" "sdb" "b").2).length = 2 ∧
    ((FC6_MultiPath_parse ((FC6_MultiPath_parse [] 1 "/dev/mapper/mpatha" "sda" "a").2)
        2 "mpatha" "sdb" "b").2).map (fun g => g.paths.length) = [1, 1] := by
  decide

/-- C2 (amended): grouping compares each existing group's stored name (the full
`--name` of its creating call) with the candidate's derived last segment: a
second call joins the group created by a first call exactly when the first
call's full `--name` equals the second's last `/`-segment. In particular
`--name=mpatha` followed by `--name=/dev/mapper/mpatha` lands in one group. -/
theorem mp_C2_amended (l1 l2 : Nat) (n1 d1 r1 n2 d2 r2 : String)
    (hdev : d2 ≠ d1) (hname : lastSeg n2 = n1) :
    (FC6_MultiPath_parse ((FC6_MultiPath_parse [] l1 n1 d1 r1).2) l2 n2 d2 r2).2 =
      [{ name := n1, paths := [mpCandidate l1 n1 d1 r1, mpCandidate l2 n2 d2 r2] }] := by
  have h1 := parse_step_new [] l1 n1 d1 r1 rfl rfl
  rw [h1]
  have hc : findConflict ([] ++ [{ name := n1, paths := [mpCandidate l1 n1 d1 r1] }]) d2
      = none := by
    rw [findConflict_eq_none]
    simp [allDevices, mpCandidate]
    exact fun hcon => absurd hcon hdev
  have hp : findParentIdx ([] ++ [{ name := n1, paths := [mpCandidate l1 n1 d1 r1] }])
      (lastSeg n2) = some 0 := by
    have hn : ({ name := n1, paths := [mpCandidate l1 n1 d1 r1] } : FC6_MultiPathData).name
        = lastSeg n2 := hname.symm
    simp [findParentIdx, hn]
    exact hname.symm
  rw [parse_step_match _ l2 n2 d2 r2 0 hc hp]
  rfl

theorem mp_C2_amended_witness :
    (FC6_MultiPath_parse ((FC6_MultiPath_parse [] 1 "mpatha" "sda" "a").2)
        2 "/dev/mapper/mpatha" "sdb" "b").2 =
      [{ name := "mpatha",
         paths := [mpCandidate 1 "mpatha" "sda" "a",
                   mpCandidate 2 "/dev/mapper/mpatha" "sdb" "b"] }] :=
  mp_C2_amended 1 2 "mpatha" "sda" "a" "/dev/mapper/mpatha" "sdb" "b"
    (by decide) (by decide)

/-- C7: a parse call that raises the identity-conflict error leaves the
command's group sequence exactly as it was: no group is created and no path
record is appended. -/
theorem mp_C7_atomic_on_error (st : List FC6_MultiPathData) (lineno : Nat)
    (n d r : String) (e : MpParseError) (st2 : List FC6_MultiPathData)
    (h : FC6_MultiPath_parse st lineno n d r = (Except.error e, st2)) :
    st2 = st := by
  cases hc : findConflict st d with
  | some p =>
    simp only [FC6_MultiPath_parse, hc] at h
    injection h with h1 h2
    exact h2.symm
  | none =>
    cases hp : findParentIdx st (lastSeg n) with
    | none =>
      rw [parse_step_new st lineno n d r hc hp] at h
      injection h with h1 h2
      exact Except.noConfusion h1
    | some i =>
      rw [parse_step_match st lineno n d r i hc hp] at h
      injection h with h1 h2
      exact Except.noConfusion h1

theorem mp_C7_atomic_on_error_witness :
    (FC6_MultiPath_parse ((FC6_MultiPath_parse [] 1 "mpatha" "sda" "a").2)
        2 "mpathb" "sda" "b").2 =
      (FC6_MultiPath_parse [] 1 "mpatha" "sda" "a").2 :=
  mp_C7_atomic_on_error _ 2 "mpathb" "sda" "b"
    { lineno := 2, device := "sda", multipathdev := "mpatha" } _ rfl

/-- C8: on success, parse returns the newly created group record when no
existing group's name matches the candidate's derived device name (and the new
group, holding the candidate as its sole path, is appended to the sequence),
and returns the candidate path record itself when a group matches (the
candidate being appended to that group's paths and every other group left
unchanged); in both cases the candidate lands in exactly one group. -/
theorem mp_C8_returns (st : List FC6_MultiPathData) (lineno : Nat) (n d r : String)
    (hc : findConflict st d = none) :
    (findParentIdx st (lastSeg n) = none →
      FC6_MultiPath_parse st lineno n d r =
        (Except.ok (MpParseRet.group { name := n, paths := [mpCandidate lineno n d r] }),
         st ++ [{ name := n, paths := [mpCandidate lineno n d r] }])) ∧
    (∀ pre g suf, st = pre ++ g :: suf →
      findParentIdx st (lastSeg n) = some pre.length →
      FC6_MultiPath_parse st lineno n d r =
        (Except.ok (MpParseRet.path (mpCandidate lineno n d r)),
         pre ++ { g with paths := g.paths ++ [mpCandidate lineno n d r] } :: suf)) := by
  constructor
  · intro hp
    exact parse_step_new st lineno n d r hc hp
  · intro pre g suf hst hp
    subst hst
    rw [parse_step_match _ lineno n d r pre.length hc hp, appendToGroup_eq]

theorem mp_C8_returns_witness :
    (FC6_MultiPath_parse [] 1 "mpatha" "sda" "a" =
      (Except.ok (MpParseRet.group { name := "mpatha", paths := [mpCandidate 1 "mpatha" "sda" "a"] }),
       [] ++ [{ name := "mpatha", paths := [mpCandidate 1 "mpatha" "sda" "a"] }])) ∧
    (FC6_MultiPath_parse [{ name := "mpatha", paths := [mpCandidate 1 "mpatha" "sda" "a"] }]
        2 "mpatha" "sdb" "b" =
      (Except.ok (MpParseRet.path (mpCandidate 2 "mpatha" "sdb" "b")),
       [] ++ { name := "mpatha",
               paths := [mpCandidate 1 "mpatha" "sda" "a"] ++ [mpCandidate 2 "mpatha" "sdb" "b"] }
         :: [])) :=
  ⟨(mp_C8_returns [] 1 "mpatha" "sda" "a" rfl).1 rfl,
   (mp_C8_returns [{ name := "mpatha", paths := [mpCandidate 1 "mpatha" "sda" "a"] }]
      2 "mpatha" "sdb" "b" rfl).2 []
      { name := "mpatha", paths := [mpCandidate 1 "mpatha" "sda" "a"] } [] rfl (by decide)⟩

/-- C3: for every model built by successful parse calls, the rendered text is
one directive line per path (paths in append order inside groups, groups in
creation order), and re-parsing those lines on a fresh command succeeds and
yields an equivalent, order-preserving model: same group names in the same
order, and pointwise equivalent path records (same `mpdev`, `device`, `rule`)
in the same order. -/
theorem mp_C3_roundtrip (st : List FC6_MultiPathData) (h : MpReach st) :
    multiPathStr st = strConcat ((datalines st).map renderLine) ∧
    ∃ st2, reparse (datalines st) [] = Except.ok st2 ∧ modelEquiv st st2 := by
  have inv := mpInv_of_reach h
  refine ⟨multiPathStr_eq_datalines st, canonModel st, ?_, modelEquiv_canon inv⟩
  have hgo := reparse_go st [] inv
  exact hgo

theorem mp_C3_roundtrip_witness :
    multiPathStr mpExampleMix = strConcat ((datalines mpExampleMix).map renderLine) ∧
    ∃ st2, reparse (datalines mpExampleMix) [] = Except.ok st2 ∧ modelEquiv mpExampleMix st2 :=
  mp_C3_roundtrip mpExampleMix mpExampleMix_reach

/-! ## Claim theorems: script sections -/

theorem scriptFinalize_kind (s : ScriptSectionState) :
    (scriptFinalize s).kind = s.kind := by
  unfold scriptFinalize
  split
  · rfl
  · rfl

theorem secReach_kind {k : ScriptKind} {s : ScriptSectionState} (h : SecReach k s) :
    s.kind = k := by
  induction h with
  | init => rfl
  | header lineno ns hr hns ih => exact ih
  | line l hr ih => exact ih
  | @fin s0 hr ih =>
    rw [scriptFinalize_kind]
    exact ih

theorem secReach_pre_chroot {s : ScriptSectionState} (h : SecReach ScriptKind.pre s) :
    s.script.chroot = false ∧ ∀ rec2 ∈ s.scripts, rec2.inChroot = false := by
  induction h with
  | init => exact ⟨rfl, by simp [initScriptSection]⟩
  | header lineno ns hr hns ih =>
    constructor
    · show (match ns.nochroot with
        | some nc => !nc
        | none => _) = false
      have hn : ns.nochroot = none := hns
      rw [hn]
      exact ih.1
    · exact ih.2
  | line l hr ih => exact ih
  | @fin s0 hr ih =>
    by_cases hb : pyStrip (joinSep " " s0.script.body) = ""
    · have : scriptFinalize s0 = s0 := by simp [scriptFinalize, hb]
      rw [this]
      exact ih
    · have hkind := secReach_kind hr
      have hfin : scriptFinalize s0 =
          { s0 with script := resetScript s0.kind,
                    scripts := s0.scripts ++ [mkScriptRecord s0.script] } := by
        simp [scriptFinalize, hb]
      rw [hfin]
      constructor
      · show (resetScript s0.kind).chroot = false
        rw [hkind]
        rfl
      · intro rec2 hrec
        rcases List.mem_append.mp hrec with hr1 | hr1
        · exact ih.2 rec2 hr1
        · have he : rec2 = mkScriptRecord s0.script := by simpa using hr1
          subst he
          show s0.script.chroot = false
          exact ih.1

/-- C4: finalize on a body that is empty or all-whitespace appends no record to
the handler's script list, while a body that consists of a single non-blank
line (as delivered by handleLine, trailing newline included) produces exactly
one appended record whose body holds that line verbatim. -/
theorem script_C4_finalize_body (s : ScriptSectionState) :
    ((∀ l ∈ s.script.body, ∀ c ∈ l.data, pyIsSpace c) →
      (scriptFinalize s).scripts = s.scripts) ∧
    (∀ line : String, s.script.body = [] → (∃ c ∈ line.data, pyIsSpace c = false) →
      (scriptFinalize (scriptHandleLine s line)).scripts =
        s.scripts ++ [mkScriptRecord { s.script with body := [line] }] ∧
      (mkScriptRecord { s.script with body := [line] }).body = [line]) := by
  constructor
  · intro hall
    have hstrip : pyStrip (joinSep " " s.script.body) = "" :=
      pyStrip_eq_empty_of_all_space (joinSep_space_all_space hall)
    simp [scriptFinalize, hstrip]
  · intro line hbody hnon
    have hb2 : (scriptHandleLine s line).script = { s.script with body := [line] } := by
      simp [scriptHandleLine, hbody]
    have hstrip : pyStrip (joinSep " " [line]) ≠ "" := by
      rw [joinSep_single]
      intro hcon
      obtain ⟨c, hc, hcs⟩ := hnon
      have := all_space_of_pyStrip_eq_empty hcon c hc
      rw [this] at hcs
      cases hcs
    constructor
    · show (scriptFinalize (scriptHandleLine s line)).scripts = _
      have hsc : (scriptHandleLine s line).scripts = s.scripts := rfl
      rw [scriptFinalize, hb2]
      have hbody2 : ({ s.script with body := [line] } : ScriptDict).body = [line] := rfl
      rw [hbody2]
      rw [if_neg hstrip]
      rfl
    · rfl

theorem script_C4_finalize_body_witness :
    ((scriptFinalize (scriptHandleLine (initScriptSection ScriptKind.pre) " \n")).scripts =
      (scriptHandleLine (initScriptSection ScriptKind.pre) " \n").scripts) ∧
    ((scriptFinalize (scriptHandleLine (initScriptSection ScriptKind.post) "echo hi\n")).scripts =
        (initScriptSection ScriptKind.post).scripts ++
          [mkScriptRecord
            { (initScriptSection ScriptKind.post).script with body := ["echo hi\n"] }] ∧
      (mkScriptRecord
        { (initScriptSection ScriptKind.post).script with body := ["echo hi\n"] }).body =
          ["echo hi\n"]) :=
  ⟨(script_C4_finalize_body (scriptHandleLine (initScriptSection ScriptKind.pre) " \n")).1
      (by decide),
   (script_C4_finalize_body (initScriptSection ScriptKind.post)).2 "echo hi\n" rfl (by decide)⟩

/-- C5: a %post header sets the accumulated `chroot` flag to the negation of
the `--nochroot` flag; handleLine never touches it; a finalize that emits a
record copies it into the record's `inChroot`; and for a %pre section every
reachable state has `chroot = false` and only records with `inChroot = false`,
whatever header arguments its parser can produce. -/
theorem script_C5_chroot :
    (∀ (s : ScriptSectionState) (lineno : Nat) (ns : ScriptNs) (nc : Bool),
        ns.nochroot = some nc →
        (scriptHandleHeader s lineno ns).script.chroot = !nc) ∧
    (∀ (s : ScriptSectionState) (line : String),
        (scriptHandleLine s line).script.chroot = s.script.chroot) ∧
    (∀ s : ScriptSectionState, pyStrip (joinSep " " s.script.body) ≠ "" →
        (scriptFinalize s).scripts = s.scripts ++ [mkScriptRecord s.script] ∧
        (mkScriptRecord s.script).inChroot = s.script.chroot) ∧
    (∀ s : ScriptSectionState, SecReach ScriptKind.pre s →
        s.script.chroot = false ∧ ∀ rec2 ∈ s.scripts, rec2.inChroot = false) := by
  refine ⟨?_, ?_, ?_, ?_⟩
  · intro s lineno ns nc hnc
    show (match ns.nochroot with
      | some nc2 => !nc2
      | none => s.script.chroot) = !nc
    rw [hnc]
  · intro s line
    rfl
  · intro s hne
    constructor
    · simp [scriptFinalize, hne]
    · rfl
  · intro s hreach
    exact secReach_pre_chroot hreach

theorem script_C5_chroot_witness :
    ((scriptHandleHeader (initScriptSection ScriptKind.post) 3
        { errorOnFail := false, interpreter := "/bin/sh", log := none, nochroot := some true
        }).script.chroot = !true) ∧
    ((scriptHandleLine (initScriptSection ScriptKind.post) "x").script.chroot =
      (initScriptSection ScriptKind.post).script.chroot) ∧
    ((scriptFinalize (scriptHandleLine (initScriptSection ScriptKind.post) "x\n")).scripts =
        (scriptHandleLine (initScriptSection ScriptKind.post) "x\n").scripts ++
          [mkScriptRecord (scriptHandleLine (initScriptSection ScriptKind.post) "x\n").script] ∧
      (mkScriptRecord (scriptHandleLine (initScriptSection ScriptKind.post) "x\n").script).inChroot
        = (scriptHandleLine (initScriptSection ScriptKind.post) "x\n").script.chroot) ∧
    ((initScriptSection ScriptKind.pre).script.chroot = false ∧
      ∀ rec2 ∈ (initScriptSection ScriptKind.pre).scripts, rec2.inChroot = false) :=
  ⟨script_C5_chroot.1 (initScriptSection ScriptKind.post) 3
      { errorOnFail := false, interpreter := "/bin/sh", log := none, nochroot := some true } true
      rfl,
   script_C5_chroot.2.1 (initScriptSection ScriptKind.post) "x",
   script_C5_chroot.2.2.1 (scriptHandleLine (initScriptSection ScriptKind.post) "x\n")
      (by decide),
   script_C5_chroot.2.2.2 (initScriptSection ScriptKind.pre) SecReach.init⟩

/-- C9 counterexample: finalize does NOT always reset the buffer: on an
all-whitespace body it returns early, leaving the whitespace line in the body
buffer instead of restoring the freshly-initialized dict. -/
theorem script_C9_counterexample :
    (scriptFinalize (scriptHandleLine (initScriptSection ScriptKind.pre) " ")).script.body =
      [" "] ∧
    (scriptFinalize (scriptHandleLine (initScriptSection ScriptKind.pre) " ")).script ≠
      resetScript ScriptKind.pre := by
  decide

/-- C9 (amended): after every finalize that emits a record (body not
all-whitespace) the accumulation dict is reset to its freshly-initialized,
kind-specific state; a finalize on an empty or all-whitespace body leaves the
whole section state unchanged (the buffer is NOT reset); and handleHeader
increments the occurrence counter without touching the body buffer, so
repeated sections of the same kind accumulate independently once a record has
been emitted. -/
theorem script_C9_amended (s : ScriptSectionState) :
    (pyStrip (joinSep " " s.script.body) ≠ "" →
      (scriptFinalize s).script = resetScript s.kind) ∧
    (pyStrip (joinSep " " s.script.body) = "" → scriptFinalize s = s) ∧
    (∀ (lineno : Nat) (ns : ScriptNs),
      (scriptHandleHeader s lineno ns).script.body = s.script.body) ∧
    (∀ (lineno : Nat) (ns : ScriptNs),
      (scriptHandleHeader s lineno ns).timesSeen = s.timesSeen + 1) := by
  refine ⟨?_, ?_, ?_, ?_⟩
  · intro h
    simp [scriptFinalize, h]
  · intro h
    simp [scriptFinalize, h]
  · intro _ _
    rfl
  · intro _ _
    rfl

theorem script_C9_amended_witness :
    ((scriptFinalize (scriptHandleLine (initScriptSection ScriptKind.post) "x\n")).script =
      resetScript ScriptKind.post) ∧
    (scriptFinalize (initScriptSection ScriptKind.post) = initScriptSection ScriptKind.post) ∧
    ((scriptHandleHeader (initScriptSection ScriptKind.post) 4
        { errorOnFail := false, interpreter := "/bin/sh", log := none, nochroot := some false
        }).script.body = (initScriptSection ScriptKind.post).script.body) :=
  ⟨(script_C9_amended (scriptHandleLine (initScriptSection ScriptKind.post) "x\n")).1
      (by decide),
   (script_C9_amended (initScriptSection ScriptKind.post)).2.1 (by decide),
   (script_C9_amended (initScriptSection ScriptKind.post)).2.2.1 4
      { errorOnFail := false, interpreter := "/bin/sh", log := none, nochroot := some false }⟩

/-! ## Claim theorems: packages section -/

/-- C6: the %packages header raises a parse error carrying the header's line
number whenever `--default` is combined with `--nobase`, and likewise whenever
`--default` is combined with `--nocore`; with `--default` alone (neither
`--nobase` nor `--nocore`) the shared record ends with `default = true` and
`addBase = true`. -/
theorem pkgs_C6_default_exclusive (p : PackagesRec) (ts lineno : Nat) (ns : PkgNs) :
    (ns.defaultPackages = true → ns.nobase = true →
      packagesHandleHeader p ts lineno ns = Except.error (PkgErr.defaultNobase lineno)) ∧
    (ns.defaultPackages = true → ns.nocore = true →
      ∃ e, packagesHandleHeader p ts lineno ns = Except.error e ∧ pkgErrLineno e = lineno) ∧
    (ns.defaultPackages = true → ns.nobase = false → ns.nocore = false →
      ∃ p2 ts2, packagesHandleHeader p ts lineno ns = Except.ok (p2, ts2) ∧
        p2.default = true ∧ p2.addBase = true) := by
  refine ⟨?_, ?_, ?_⟩
  · intro h1 h2
    simp [packagesHandleHeader, h1, h2]
  · intro h1 h2
    by_cases h3 : ns.nobase = true
    · exact ⟨PkgErr.defaultNobase lineno, by simp [packagesHandleHeader, h1, h3], rfl⟩
    · have h3f : ns.nobase = false := by
        cases hnb : ns.nobase
        · rfl
        · exact absurd hnb h3
      exact ⟨PkgErr.defaultNocore lineno, by simp [packagesHandleHeader, h1, h2, h3f], rfl⟩
  · intro h1 h2 h3
    refine ⟨{ excludeDocs := ns.excludedocs, addBase := !ns.nobase,
              handleMissing := if ns.ignoremissing then HandleMissing.ignore
                else HandleMissing.prompt,
              default := if ns.defaultPackages then true else p.default,
              instLangs := match ns.instLangs with
                | some v => some v
                | none => p.instLangs,
              nocore := ns.nocore, multiLib := ns.multiLib, seen := true },
      ts + 1, ?_, ?_, ?_⟩
    · simp [packagesHandleHeader, h1, h2, h3]
    · simp [h1]
    · simp [h2]

def pkgs0 : PackagesRec :=
  { excludeDocs := false, addBase := true, handleMissing := HandleMissing.prompt,
    default := false, instLangs := none, nocore := false, multiLib := false, seen := false }

def nsDefaultOnly : PkgNs :=
  { excludedocs := false, ignoremissing := false, nobase := false, nocore := false,
    defaultPackages := true, instLangs := none, multiLib := false }

def nsDefaultNobase : PkgNs := { nsDefaultOnly with nobase := true }

def nsDefaultNocore : PkgNs := { nsDefaultOnly with nocore := true }

def nsPlain : PkgNs := { nsDefaultOnly with defaultPackages := false }

theorem pkgs_C6_default_exclusive_witness :
    (packagesHandleHeader pkgs0 0 7 nsDefaultNobase =
      Except.error (PkgErr.defaultNobase 7)) ∧
    (∃ e, packagesHandleHeader pkgs0 0 8 nsDefaultNocore = Except.error e ∧
      pkgErrLineno e = 8) ∧
    (∃ p2 ts2, packagesHandleHeader pkgs0 0 9 nsDefaultOnly = Except.ok (p2, ts2) ∧
      p2.default = true ∧ p2.addBase = true) :=
  ⟨(pkgs_C6_default_exclusive pkgs0 0 7 nsDefaultNobase).1 rfl rfl,
   (pkgs_C6_default_exclusive pkgs0 0 8 nsDefaultNocore).2.1 rfl rfl,
   (pkgs_C6_default_exclusive pkgs0 0 9 nsDefaultOnly).2.2 rfl rfl rfl⟩

/-- C10: a successful %packages header never writes `false` into `default` or
`seen`: the new `default` is the old one OR-ed with the `--default` flag (so a
once-set `default` survives every later header without the flag) and `seen`
always ends `true`, whereas `excludeDocs`, `addBase`, `handleMissing`, `nocore`
and `multiLib` are overwritten from the current header alone. -/
theorem pkgs_C10_default_seen_monotone (p : PackagesRec) (ts lineno : Nat) (ns : PkgNs)
    (p2 : PackagesRec) (ts2 : Nat)
    (h : packagesHandleHeader p ts lineno ns = Except.ok (p2, ts2)) :
    p2.default = (p.default || ns.defaultPackages) ∧
    (p.default = true → p2.default = true) ∧
    p2.seen = true ∧
    p2.excludeDocs = ns.excludedocs ∧
    p2.addBase = !ns.nobase ∧
    p2.handleMissing =
      (if ns.ignoremissing then HandleMissing.ignore else HandleMissing.prompt) ∧
    p2.nocore = ns.nocore ∧
    p2.multiLib = ns.multiLib := by
  unfold packagesHandleHeader at h
  split at h
  · exact Except.noConfusion h
  · split at h
    · exact Except.noConfusion h
    · injection h with h1
      injection h1 with h2 h3
      subst h2
      refine ⟨?_, ?_, rfl, rfl, rfl, rfl, rfl, rfl⟩
      · show (if ns.defaultPackages then true else p.default) = (p.default || ns.defaultPackages)
        cases hdp : ns.defaultPackages
        · simp
        · simp
      · intro hpd
        show (if ns.defaultPackages then true else p.default) = true
        cases hdp : ns.defaultPackages
        · simpa using hpd
        · simp

theorem pkgs_C10_default_seen_monotone_witness :
    ({ pkgs0 with default := true, seen := true } : PackagesRec).default =
      (true || nsPlain.defaultPackages) ∧
    (({ pkgs0 with default := true } : PackagesRec).default = true →
      ({ pkgs0 with default := true, seen := true } : PackagesRec).default = true) ∧
    ({ pkgs0 with default := true, seen := true } : PackagesRec).seen = true ∧
    ({ pkgs0 with default := true, seen := true } : PackagesRec).excludeDocs =
      nsPlain.excludedocs ∧
    ({ pkgs0 with default := true, seen := true } : PackagesRec).addBase = !nsPlain.nobase ∧
    ({ pkgs0 with default := true, seen := true } : PackagesRec).handleMissing =
      (if nsPlain.ignoremissing then HandleMissing.ignore else HandleMissing.prompt) ∧
    ({ pkgs0 with default := true, seen := true } : PackagesRec).nocore = nsPlain.nocore ∧
    ({ pkgs0 with default := true, seen := true } : PackagesRec).multiLib = nsPlain.multiLib :=
  pkgs_C10_default_seen_monotone { pkgs0 with default := true } 0 5 nsPlain
    { pkgs0 with default := true, seen := true } 1 rfl
